import Mathlib

/-!
Verification development for the PySpark Count Sketch program
(src/count-sketch-code.py).

The program is embedded shallowly: Python dicts become insertion-ordered
association lists, the numpy sketch matrix becomes a function from row and
bucket indices to signed integers, Spark RDD batches become lists of
integers, and the statistics section of `__main__` becomes an
`Option`-valued computation where `none` models a raised Python exception
(IndexError, ZeroDivisionError, NameError).  All integer arithmetic is
exact (`Int`); frequency estimates, which numpy represents as float64,
are modelled as exact rationals since every claim under study is about
the structure of the computation, not float rounding.
-/

namespace CountSketch

/-- Configuration of one run: the globals `D`, `W`, `p`, `a`, `b`, `left`,
`right` of the source.  `a` and `b` model the two numpy arrays of length
`2*D` drawn once at startup (lines 191-192); entries beyond `2*D` are
never read. -/
structure Cfg where
  D : Nat
  W : Int
  p : Int
  a : Nat → Int
  b : Nat → Int
  left : Int
  right : Int

/-- Hash function h: U -> 0, ..., W-1 (source line 62-63):
`((a*int(x) + b) % p) % W`.  Lean's `Int` `%` is Euclidean mod, which
agrees with Python `%` for a positive modulus. -/
def h_hash (p W x a b : Int) : Int :=
  ((a * x + b) % p) % W

/-- Hash function g: U -> -1, 1 (source lines 66-68):
`2*(((a*x + b) % p) % 2) - 1`. -/
def g_hash (p x a b : Int) : Int :=
  2 * (((a * x + b) % p) % 2) - 1

/-- The bucket hash of row `j`, using parameter slots `a[j]`, `b[j]`
exactly as `count_sketch` does (source line 86). -/
def hj (cfg : Cfg) (j : Nat) (x : Int) : Int :=
  h_hash cfg.p cfg.W x (cfg.a j) (cfg.b j)

/-- The sign hash of row `j`, using parameter slots `a[j+D]`, `b[j+D]`
exactly as `count_sketch` does (source line 86). -/
def gj (cfg : Cfg) (j : Nat) (x : Int) : Int :=
  g_hash cfg.p x (cfg.a (j + cfg.D)) (cfg.b (j + cfg.D))

/-- The sketch matrix `sketch` (a numpy `(D, W)` array, line 195), as a
function from row and bucket to the signed cell value. -/
abbrev Sketch : Type := Nat → Int → Int

/-- The value that the j-th MapReduce round of `count_sketch` adds to
bucket `c`: the entry of `sketch_dict` at key `c` (source lines 86-88),
i.e. the sum of `g_hash` over the batch elements whose `h_hash` is `c`
(`reduceByKey` of the mapped pairs).  A key absent from the dict
contributes 0, matching the loop on lines 91-92. -/
def rowContrib (cfg : Cfg) (j : Nat) (l : List Int) (c : Int) : Int :=
  ((l.filter (fun x => decide (hj cfg j x = c))).map (gj cfg j)).sum

/-- `count_sketch(f_batch)` (source lines 71-92): for every row `j < D`,
add the j-th `sketch_dict` entries into row `j` of the sketch. -/
def count_sketch (cfg : Cfg) (sk : Sketch) (l : List Int) : Sketch :=
  fun j c => if j < cfg.D then sk j c + rowContrib cfg j l c else sk j c

/-- A single aggregated sketch update of weight `m` for item `x`: what
`count_sketch` does to a batch holding `m` copies of `x` alone.  Used to
state the spec's `Update(item, m)` operation. -/
def sketchUpdate1 (cfg : Cfg) (sk : Sketch) (x m : Int) : Sketch :=
  fun j c => if j < cfg.D ∧ hj cfg j x = c then sk j c + m * gj cfg j x else sk j c

/-- A Python dict with `Int` keys and values, as an association list in
key-insertion order (Python dicts preserve insertion order). -/
abbrev Hist : Type := List (Int × Int)

/-- `m[x] += c`, inserting `x` with value `c` when absent: the dict
update pattern of source lines 122-126. -/
def addCount (m : Hist) (x c : Int) : Hist :=
  match m with
  | [] => [(x, c)]
  | (k, v) :: rest => if k = x then (k, v + c) :: rest else (k, v) :: addCount rest x c

/-- Value of key `k` in the dict, 0 when absent. -/
def lookupD (m : Hist) (k : Int) : Int :=
  match m with
  | [] => 0
  | (x, v) :: rest => if x = k then v else lookupD rest k

/-- `batch_items` (source line 118): map each element to `(x, 1)`,
`reduceByKey` with `+`, `collectAsMap`; modelled as a dict keyed in
first-occurrence order with summed multiplicities. -/
def batch_items (l : List Int) : Hist :=
  l.foldl (fun m x => addCount m x 1) []

/-- The histogram update loop of `process_batch` (source lines 122-126). -/
def updateHist (h : Hist) (bi : Hist) : Hist :=
  bi.foldl (fun h kv => addCount h kv.1 kv.2) h

/-- Mutable state of the stream summary: `streamLength[0]`,
`streamLength[1]`, `histogram` and `sketch` (source lines 185-195). -/
structure SState where
  seen : Int
  admitted : Int
  hist : Hist
  sketch : Sketch

/-- The hardcoded stopping threshold (source line 56). -/
def THRESHOLD : Int := 10000000

/-- The filtering of a batch to the admissible interval `[left, right]`
(source line 114). -/
def filteredBatch (cfg : Cfg) (batch : List Int) : List Int :=
  batch.filter (fun x => decide (cfg.left ≤ x ∧ x ≤ cfg.right))

/-- `process_batch` (source lines 98-133).  The batch arrives as integer
tokens (decoding of malformed tokens is the ingestion collaborator's
concern).  If `streamLength[0] >= THRESHOLD` the batch is skipped
entirely; otherwise the raw size is added to `streamLength[0]`, the
filtered size to `streamLength[1]`, the per-item multiplicities to
`histogram`, and `count_sketch` runs on the filtered batch.  The
`stopping_condition.set()` call mutates no summary state and is not
modelled. -/
def process_batch (cfg : Cfg) (s : SState) (batch : List Int) : SState :=
  if THRESHOLD ≤ s.seen then s
  else
    ⟨s.seen + (batch.length : Int),
     s.admitted + ((filteredBatch cfg batch).length : Int),
     updateHist s.hist (batch_items (filteredBatch cfg batch)),
     count_sketch cfg s.sketch (filteredBatch cfg batch)⟩

/-- The initial state: `streamLength = [0,0]`, `histogram = ` empty,
`sketch = np.zeros((D, W))` (source lines 185-195). -/
def initState : SState :=
  ⟨0, 0, [], fun _ _ => 0⟩

/-- Stable ascending insertion into a sorted list of integers, used to
model the sort inside `np.median`. -/
def insortInt (x : Int) : List Int → List Int
  | [] => [x]
  | y :: ys => if x ≤ y then x :: y :: ys else y :: insortInt x ys

/-- Ascending sort of a list of integers. -/
def sortInt (l : List Int) : List Int :=
  l.foldr insortInt []

/-- Twice the value of `np.median` on a nonempty vector of integers:
`np.median` returns `(s[(n-1)//2] + s[n//2]) / 2` on the sorted copy
`s` (for odd `n` both indices coincide), so twice the median is the sum
of the two central order statistics, which stays an integer and keeps
the whole reporting pipeline kernel-computable.  `np.median` of an
empty vector is NaN; that case is modelled as 0 and never relied on. -/
def medianTwice (l : List Int) : Int :=
  if l.length = 0 then 0
  else (sortInt l).getD ((l.length - 1) / 2) 0 + (sortInt l).getD (l.length / 2) 0

/-- The list `approx_freq_list` built for item `u` (source lines
225-227): `g_hash(u, a[j+D], b[j+D]) * sketch[j, h_hash(u, a[j], b[j])]`
for `j = 0, ..., D-1`.  The sketch cells hold integer-valued float64
counters; the per-row products are therefore exact integers. -/
def approx_freq_list (cfg : Cfg) (sk : Sketch) (u : Int) : List Int :=
  (List.range cfg.D).map (fun j => gj cfg j u * sk j (hj cfg j u))

/-- Twice the entry of `approx_histogram` for item `u`. -/
def approxTwice (cfg : Cfg) (sk : Sketch) (u : Int) : Int :=
  medianTwice (approx_freq_list cfg sk u)

/-- The entry of `approx_histogram` for item `u` (source line 228):
`np.median(approx_freq_list)`, i.e. half of `approxTwice`.  Modelled as
a total function; the program only ever reads it at keys of
`histogram`, for which the dict entry exists. -/
def approx_histogram (cfg : Cfg) (sk : Sketch) (u : Int) : ℚ :=
  ((approxTwice cfg sk u : ℚ)) / 2

/-- The median policy in the words of the spec (section 4.2): for odd
`n` the single middle value after sorting, for even `n` the arithmetic
mean of the two middle values after sorting.  Written from the spec's
words, to be compared with `approx_histogram`. -/
def specMedian (l : List Int) : ℚ :=
  if l.length % 2 = 1 then (((sortInt l).getD (l.length / 2) 0 : ℚ))
  else if l.length = 0 then 0
  else ((((sortInt l).getD (l.length / 2 - 1) 0 : ℚ)) +
    (((sortInt l).getD (l.length / 2) 0 : ℚ))) / 2

/-- The weighted per-bucket sum of sign hashes over the entries of a
dict of multiplicities: the amount row `j`, bucket `c` of the sketch
receives when each distinct item `kv.1` is applied with weight `kv.2`. -/
def cellSum (cfg : Cfg) (bi : Hist) (j : Nat) (c : Int) : Int :=
  (bi.map (fun kv => kv.2 * (if hj cfg j kv.1 = c then gj cfg j kv.1 else 0))).sum

/-- The state after feeding a whole run of batches to `process_batch`,
starting from the initial state. -/
def runState (cfg : Cfg) (batches : List (List Int)) : SState :=
  batches.foldl (process_batch cfg) initState

/-- Stable descending insertion by the second component: an element is
placed before the first strictly smaller value, after all values that
are greater or equal. -/
def insertDesc : Hist → (Int × Int) → Hist
  | [], x => [x]
  | y :: ys, x => if y.2 < x.2 then x :: y :: ys else y :: insertDesc ys x

/-- `desc_histogram` (source line 231):
`sorted(histogram.items(), key=item[1], reverse=True)`.  Python `sorted`
is stable, so equal frequencies keep dict insertion order; a left fold
of stable insertions models this. -/
def sortDesc (l : Hist) : Hist :=
  l.foldl insertDesc []

/-- Python list indexing `l[i]`: nonnegative indices from the front,
negative indices from the back, `none` for IndexError. -/
def pyGet {α : Type} (l : List α) (i : Int) : Option α :=
  if 0 ≤ i then l.get? i.toNat
  else if 0 ≤ (l.length : Int) + i then l.get? ((l.length : Int) + i).toNat
  else none

/-- The loop `for k in np.arange(0, K)` of the reporter (source lines
248-255 and 279-284): for each rank `k` it reads `desc_histogram[k]`,
prints the row (K<=20 branch only) and appends `true_freq**2` and
`approx_freq**2` to the two F2 lists.  Estimates are carried doubled
(`approxT u = 2 * approx_histogram u`), so rows hold
`(item, true_freq, 2*approx_freq)` and the second F2 list holds
`(2*approx_freq)**2 = 4*approx_freq**2`; `reportedF2` divides the
factor 4 back out.  Returns the printed rows, the two F2 lists, and the
final value of the loop variables `(true_freq, approx_freq)` (`none`
when the loop body never ran, i.e. the Python variables are still
unbound); `none` overall models an IndexError. -/
def topLoop (desc : Hist) (approxT : Int → Int) :
    Nat → Option (List (Int × Int × Int) × List Int × List Int × Option (Int × Int))
  | 0 => some ([], [], [], none)
  | n + 1 =>
    match topLoop desc approxT n with
    | none => none
    | some (rows, f2t, f2a, _) =>
      match pyGet desc (n : Int) with
      | none => none
      | some kv =>
        some (rows ++ [(kv.1, kv.2, approxT kv.1)],
              f2t ++ [kv.2 ^ 2],
              f2a ++ [(approxT kv.1) ^ 2],
              some (kv.2, approxT kv.1))

/-- The tie-extension `while True` loop (source lines 257-266 and
286-293).  `targetT` is the doubled
`approx_histogram[desc_histogram[K-1][0]]` (constant across
iterations); by `approx_eq_iff_twice` the equality test on doubled
estimates is the source's equality test on the `np.median` values.  One
iteration with current `count`: compare the estimate of
`desc_histogram[K-1+count]` with the target; if equal, increment
`count` and then read `desc_histogram[K+count]` (with the incremented
`count`), record that row, update the loop variables `(true_freq,
approx_freq)` and continue; otherwise break.  `none` models an
IndexError; the fuel argument only bounds the recursion and is chosen
large enough in `reportStats` that it never runs out before the loop
breaks or raises. -/
def tieLoop (desc : Hist) (approxT : Int → Int) (K : Int) (targetT : Int) :
    Nat → Int → List (Int × Int × Int) → Option (Int × Int) →
    Option (List (Int × Int × Int) × Option (Int × Int))
  | 0, _, _, _ => none
  | fuel + 1, count, extras, stale =>
    match pyGet desc (K - 1 + count) with
    | none => none
    | some kvc =>
      if approxT kvc.1 = targetT then
        match pyGet desc (K + (count + 1)) with
        | none => none
        | some kv =>
          tieLoop desc approxT K targetT fuel (count + 1)
            (extras ++ [(kv.1, kv.2, approxT kv.1)]) (some (kv.2, approxT kv.1))
      else
        some (extras, stale)

/-- The statistics section of `__main__` (source lines 245-300), common
to both the `K<=20` and `K>20` branches, which differ only in what is
printed.  Steps, mirroring the source: the top-K loop; the
tie-extension loop starting at `count = 1` with the estimate of
`desc_histogram[K-1]` as target; the remaining-items loop `for k in
np.arange(K, len(histogram))` which appends the current (stale)
`true_freq**2` and `approx_freq**2` once per remaining rank (a
NameError if those variables were never assigned and the range is
nonempty); finally the division guard of the F2 ratios, a
ZeroDivisionError when `streamLength[1]**2 = 0`.  Returns (top rows,
tie-extension rows, sum of the first F2 list, sum of the second F2
list); the printed ratios are recovered in `reportedF2`; `none` models
a raised exception. -/
def reportStats (cfg : Cfg) (s : SState) (K : Int) :
    Option (List (Int × Int × Int) × List (Int × Int × Int) × Int × Int) :=
  match topLoop (sortDesc s.hist) (approxTwice cfg s.sketch) K.toNat with
  | none => none
  | some (rows, f2t, f2a, stale0) =>
    match pyGet (sortDesc s.hist) (K - 1) with
    | none => none
    | some t =>
      match tieLoop (sortDesc s.hist) (approxTwice cfg s.sketch) K
          (approxTwice cfg s.sketch t.1)
          ((((sortDesc s.hist).length : Int) + 2 - K).toNat + 2) 1 [] stale0 with
      | none => none
      | some (extras, stale1) =>
        if (((sortDesc s.hist).length : Int) - K).toNat = 0 then
          if s.admitted ^ 2 = 0 then none
          else some (rows, extras, f2t.sum, f2a.sum)
        else
          match stale1 with
          | none => none
          | some st =>
            if s.admitted ^ 2 = 0 then none
            else some (rows, extras,
              (f2t ++ List.replicate ((((sortDesc s.hist).length : Int) - K).toNat)
                (st.1 ^ 2)).sum,
              (f2a ++ List.replicate ((((sortDesc s.hist).length : Int) - K).toNat)
                (st.2 ^ 2)).sum)

/-- The full sequence of item rows the `K<=20` branch prints (with
doubled estimates): the top-K rows followed by the tie-extension rows. -/
def reportedRows (cfg : Cfg) (s : SState) (K : Int) : Option (List (Int × Int × Int)) :=
  (reportStats cfg s K).map (fun r => r.1 ++ r.2.1)

/-- The F2 pair `(F2, F2 Estimate)` the program prints (source lines
273 and 300): the sums accumulated by `reportStats` divided by
`streamLength[1]**2`, undoing the doubling of the estimates (the second
sum carries squares of doubled estimates, hence the extra factor 4). -/
def reportedF2 (cfg : Cfg) (s : SState) (K : Int) : Option (ℚ × ℚ) :=
  (reportStats cfg s K).map (fun r =>
    (((r.2.2.1 : ℚ)) / ((s.admitted : ℚ)) ^ 2,
     ((r.2.2.2 : ℚ)) / (4 * ((s.admitted : ℚ)) ^ 2)))

/-- F2True in the words of the spec (section 4.4, step 6): the sum over
all distinct items in the histogram of the item's own true frequency
squared, divided by totalAdmitted squared.  Written from the spec, to be
compared with the source's accumulation. -/
def specF2True (s : SState) : ℚ :=
  ((s.hist.map (fun kv => ((kv.2 : ℚ)) ^ 2)).sum) / ((s.admitted : ℚ)) ^ 2

/-- F2Approx in the words of the spec (section 4.4, step 6): the sum
over all distinct items of the item's own estimated frequency squared,
divided by totalAdmitted squared. -/
def specF2Approx (cfg : Cfg) (s : SState) : ℚ :=
  ((s.hist.map (fun kv => (approx_histogram cfg s.sketch kv.1) ^ 2)).sum) /
    ((s.admitted : ℚ)) ^ 2

/-- The argument handling of `__main__` (source lines 142 and 177-182):
the only check is `assert len(sys.argv) == 7` (the script name plus six
parameters, taken here as the six integer parameters `D`, `W`, `left`,
`right`, `K`, `portExp`); the values themselves are converted with
`int(...)` and stored without any range validation. -/
def parseArgs (args : List Int) : Option (Int × Int × Int × Int × Int × Int) :=
  if args.length = 6 then
    some (args.getD 0 0, args.getD 1 0, args.getD 2 0, args.getD 3 0, args.getD 4 0,
      args.getD 5 0)
  else none

/-- A concrete configuration for counterexamples and witnesses: one row,
two buckets, the source's prime 8191, all hash parameters `a = 1`,
`b = 0` (legal draws: `a` is drawn from `[1, p-1)`, `b` from `[0, p-1)`),
admissible interval `[0, 100]`.  With these parameters
`h(x) = x % 8191 % 2` and `g(x) = 2*(x % 8191 % 2) - 1`, so for small
nonnegative `x`: odd items hash to bucket 1 with sign +1 and even items
to bucket 0 with sign -1. -/
def cfgA : Cfg :=
  ⟨1, 2, 8191, fun _ => 1, fun _ => 0, 0, 100⟩

/-- Like `cfgA` but with a single bucket (`W = 1`), so every item lands
in cell `(0, 0)`. -/
def cfgB : Cfg :=
  ⟨1, 1, 8191, fun _ => 1, fun _ => 0, 0, 100⟩

/-- State after one batch `[1,1,1,1,3,3,3,2,2,4]` under `cfgA`:
histogram 1:4, 3:3, 2:2, 4:1; estimates: odd items estimate 7, even
items estimate 3. -/
def sC1 : SState :=
  process_batch cfgA initState [1, 1, 1, 1, 3, 3, 3, 2, 2, 4]

/-- State after one batch `[5,5,5,6,7]` under `cfgA`: histogram 5:3,
6:1, 7:1; estimates: 5 and 7 estimate 4, 6 estimates 1. -/
def sC2 : SState :=
  process_batch cfgA initState [5, 5, 5, 6, 7]

/-- State after one batch `[1,1,3]` under `cfgA`: histogram 1:2, 3:1;
both items are odd, so both estimate 3. -/
def sC10 : SState :=
  process_batch cfgA initState [1, 1, 3]

/-- Two items have equal `np.median` estimates exactly when their
doubled estimates agree, so the reporter's equality tests may be
carried out on `approxTwice`. -/
theorem approx_eq_iff_twice (cfg : Cfg) (sk : Sketch) (u v : Int) :
    approx_histogram cfg sk u = approx_histogram cfg sk v ↔
      approxTwice cfg sk u = approxTwice cfg sk v := by
  unfold approx_histogram
  constructor
  · intro h
    have h2 : ((approxTwice cfg sk u : ℚ)) = ((approxTwice cfg sk v : ℚ)) := by
      field_simp at h
      exact_mod_cast h
    exact_mod_cast h2
  · intro h
    rw [h]

theorem lookupD_addCount (m : Hist) (x c k : Int) :
    lookupD (addCount m x c) k = lookupD m k + (if x = k then c else 0) := by
  induction m with
  | nil =>
    by_cases h : x = k <;> simp [addCount, lookupD, h]
  | cons yv rest ih =>
    obtain ⟨y, v⟩ := yv
    by_cases hyx : y = x
    · subst hyx
      by_cases hyk : y = k <;> simp [addCount, lookupD, hyk]
    · by_cases hyk : y = k
      · have hxk : ¬ x = k := fun h => hyx (by rw [hyk, h])
        have hkx : ¬ k = x := fun h => hxk h.symm
        subst hyk
        simp [addCount, lookupD, hkx, hxk]
      · simp [addCount, lookupD, hyx, hyk, ih]

theorem wsum_addCount (f : Int → Int) (m : Hist) (x c : Int) :
    ((addCount m x c).map (fun kv => kv.2 * f kv.1)).sum =
      (m.map (fun kv => kv.2 * f kv.1)).sum + c * f x := by
  induction m with
  | nil => simp [addCount]
  | cons yv rest ih =>
    obtain ⟨y, v⟩ := yv
    by_cases hyx : y = x
    · subst hyx
      simp [addCount]
      ring
    · simp [addCount, hyx, ih]
      ring

theorem wsum_batch_items_aux (f : Int → Int) (l : List Int) (m0 : Hist) :
    (((l.foldl (fun m x => addCount m x 1) m0)).map (fun kv => kv.2 * f kv.1)).sum =
      (m0.map (fun kv => kv.2 * f kv.1)).sum + (l.map f).sum := by
  induction l generalizing m0 with
  | nil => simp
  | cons x xs ih =>
    simp only [List.foldl_cons, List.map_cons, List.sum_cons]
    rw [ih, wsum_addCount]
    ring

theorem wsum_batch_items (f : Int → Int) (l : List Int) :
    ((batch_items l).map (fun kv => kv.2 * f kv.1)).sum = (l.map f).sum := by
  have h := wsum_batch_items_aux f l []
  simpa [batch_items] using h

theorem sum_indicator_eq_count (l : List Int) (k : Int) :
    (l.map (fun x => if x = k then (1 : Int) else 0)).sum = (l.count k : Int) := by
  induction l with
  | nil => simp
  | cons x xs ih =>
    by_cases h : x = k
    · simp [List.count_cons, h, ih]
      ring
    · simp [List.count_cons, h, ih]

theorem lookupD_updateHist (bi h0 : Hist) (k : Int) :
    lookupD (updateHist h0 bi) k =
      lookupD h0 k + (bi.map (fun kv => kv.2 * (if kv.1 = k then 1 else 0))).sum := by
  induction bi generalizing h0 with
  | nil => simp [updateHist]
  | cons kv rest ih =>
    have hstep : updateHist h0 (kv :: rest) = updateHist (addCount h0 kv.1 kv.2) rest := by
      simp [updateHist]
    rw [hstep, ih, lookupD_addCount]
    by_cases h : kv.1 = k <;> simp [h] <;> ring

theorem lookupD_updateHist_batch_items (h0 : Hist) (l : List Int) (k : Int) :
    lookupD (updateHist h0 (batch_items l)) k = lookupD h0 k + (l.count k : Int) := by
  rw [lookupD_updateHist]
  rw [wsum_batch_items (fun x => if x = k then 1 else 0)]
  rw [sum_indicator_eq_count]

theorem rowContrib_eq_mapsum (cfg : Cfg) (j : Nat) (l : List Int) (c : Int) :
    rowContrib cfg j l c =
      (l.map (fun x => if hj cfg j x = c then gj cfg j x else 0)).sum := by
  induction l with
  | nil => simp [rowContrib]
  | cons x xs ih =>
    by_cases h : hj cfg j x = c <;>
      simp [rowContrib, List.filter_cons, h] <;>
      simpa [rowContrib] using ih

theorem rowContrib_eq_cellSum (cfg : Cfg) (j : Nat) (l : List Int) (c : Int) :
    rowContrib cfg j l c = cellSum cfg (batch_items l) j c := by
  rw [rowContrib_eq_mapsum, cellSum,
    wsum_batch_items (fun x => if hj cfg j x = c then gj cfg j x else 0)]

theorem foldl_sketchUpdate1 (cfg : Cfg) (bi : Hist) (sk : Sketch) :
    bi.foldl (fun t kv => sketchUpdate1 cfg t kv.1 kv.2) sk =
      fun j c => if j < cfg.D then sk j c + cellSum cfg bi j c else sk j c := by
  induction bi generalizing sk with
  | nil =>
    funext j c
    by_cases hD : j < cfg.D <;> simp [cellSum, hD]
  | cons kv rest ih =>
    simp only [List.foldl_cons]
    rw [ih]
    funext j c
    by_cases hD : j < cfg.D
    · by_cases hc : hj cfg j kv.1 = c
      · simp [sketchUpdate1, cellSum, hD, hc]
        ring
      · simp [sketchUpdate1, cellSum, hD, hc]
    · simp [sketchUpdate1, cellSum, hD]

theorem count_sketch_eq_foldl (cfg : Cfg) (sk : Sketch) (l : List Int) :
    count_sketch cfg sk l =
      (batch_items l).foldl (fun t kv => sketchUpdate1 cfg t kv.1 kv.2) sk := by
  rw [foldl_sketchUpdate1]
  funext j c
  by_cases hD : j < cfg.D <;> simp [count_sketch, hD, rowContrib_eq_cellSum]

theorem rowContrib_append (cfg : Cfg) (j : Nat) (l1 l2 : List Int) (c : Int) :
    rowContrib cfg j (l1 ++ l2) c = rowContrib cfg j l1 c + rowContrib cfg j l2 c := by
  simp [rowContrib, List.filter_append]

theorem count_sketch_append (cfg : Cfg) (sk : Sketch) (l1 l2 : List Int) :
    count_sketch cfg sk (l1 ++ l2) = count_sketch cfg (count_sketch cfg sk l1) l2 := by
  funext j c
  by_cases hD : j < cfg.D <;> simp [count_sketch, hD, rowContrib_append] <;> ring

theorem rowContrib_perm (cfg : Cfg) (j : Nat) (c : Int) {l1 l2 : List Int}
    (h : l1.Perm l2) : rowContrib cfg j l1 c = rowContrib cfg j l2 c :=
  ((h.filter _).map _).sum_eq

theorem count_sketch_perm (cfg : Cfg) (sk : Sketch) {l1 l2 : List Int}
    (h : l1.Perm l2) : count_sketch cfg sk l1 = count_sketch cfg sk l2 := by
  funext j c
  simp [count_sketch, rowContrib_perm cfg j c h]

theorem rowContrib_replicate (cfg : Cfg) (j : Nat) (c x : Int) (m : Nat) :
    rowContrib cfg j (List.replicate m x) c =
      (m : Int) * (if hj cfg j x = c then gj cfg j x else 0) := by
  rw [rowContrib_eq_mapsum, List.map_replicate, List.sum_replicate]
  simp [nsmul_eq_mul]

theorem count_sketch_replicate (cfg : Cfg) (sk : Sketch) (x : Int) (m : Nat) :
    count_sketch cfg sk (List.replicate m x) = sketchUpdate1 cfg sk x (m : Int) := by
  funext j c
  by_cases hD : j < cfg.D
  · by_cases hc : hj cfg j x = c <;>
      simp [count_sketch, sketchUpdate1, hD, hc, rowContrib_replicate]
  · simp [count_sketch, sketchUpdate1, hD]

/-- C1 (code bug): with `D=1`, `W=2`, `a=1`, `b=0`, `[left,right] =
[0,100]`, `K=1` and the single batch `[1,1,1,1,3,3,3,2,2,4]`, the items
ranked 1 and 2 (items 1 and 3) share the estimated frequency 7, so the
tie-extension comparison at the K-th boundary succeeds; yet the reported
rows are item 1 followed by item 4 (rank 4, estimate 3): the compared
item 3 is never reported, because the loop increments `count` before
indexing `desc_histogram[K+count]`.  The claim says each compared equal
item itself is added to the reported set. -/
theorem c1_failing_eval :
    approx_histogram cfgA sC1.sketch 1 = 7 ∧
    approx_histogram cfgA sC1.sketch 3 = 7 ∧
    sortDesc sC1.hist = [(1, 4), (3, 3), (2, 2), (4, 1)] ∧
    reportedRows cfgA sC1 1 = some [(1, 4, 14), (4, 1, 6)] := by
  refine ⟨?_, ?_, by decide, by decide⟩
  · have h : approxTwice cfgA sC1.sketch 1 = 14 := by decide
    rw [approx_histogram, h]
    norm_num
  · have h : approxTwice cfgA sC1.sketch 3 = 14 := by decide
    rw [approx_histogram, h]
    norm_num

/-- C2 (code bug): with the same configuration, `K=1` and the single
batch `[5,5,5,6,7]` (histogram 5:3, 6:1, 7:1, totalAdmitted 5, estimates
5 and 7 at 4, 6 at 1), the program prints F2 = 27/25 and F2 Estimate =
48/25, because the remaining-items loop reuses the stale pair (3, 4) of
item 5 for ranks 2 and 3; the claim requires each item's own pair, which
gives 11/25 and 33/25. -/
theorem c2_failing_eval :
    reportedF2 cfgA sC2 1 = some ((27 / 25 : ℚ), (48 / 25 : ℚ)) ∧
    specF2True sC2 = (11 / 25 : ℚ) ∧
    specF2Approx cfgA sC2 = (33 / 25 : ℚ) ∧
    (27 / 25 : ℚ) ≠ (11 / 25 : ℚ) ∧ (48 / 25 : ℚ) ≠ (33 / 25 : ℚ) := by
  have hrs : reportStats cfgA sC2 1 = some ([(5, 3, 8)], [], 27, 192) := by decide
  have hadm : sC2.admitted = 5 := by decide
  have hh : sC2.hist = [(5, 3), (6, 1), (7, 1)] := by decide
  have h5 : approxTwice cfgA sC2.sketch 5 = 8 := by decide
  have h6 : approxTwice cfgA sC2.sketch 6 = 2 := by decide
  have h7 : approxTwice cfgA sC2.sketch 7 = 8 := by decide
  refine ⟨?_, ?_, ?_, by norm_num, by norm_num⟩
  · simp only [reportedF2, hrs, hadm, Option.map_some']
    norm_num
  · simp only [specF2True, hh, hadm, List.map_cons, List.map_nil, List.sum_cons,
      List.sum_nil]
    norm_num
  · simp only [specF2Approx, approx_histogram, hh, hadm, h5, h6, h7, List.map_cons,
      List.map_nil, List.sum_cons, List.sum_nil]
    norm_num

/-- C3 counterexample: the arrival sequences `[1,2]` and `[2,1]` are
permutations of each other and produce histograms with the same
contents, yet the descending rankings differ: ties among equal true
frequencies follow arrival order, not a fixed arrival-independent
secondary key. -/
theorem c3_counterexample :
    [1, 2].Perm [2, 1] ∧
    ((process_batch cfgA initState [1, 2]).hist).Perm
      ((process_batch cfgA initState [2, 1]).hist) ∧
    sortDesc (process_batch cfgA initState [1, 2]).hist ≠
      sortDesc (process_batch cfgA initState [2, 1]).hist := by
  decide

/-- C7 counterexample: the configuration `D=0`, `W=0`, `left=5`,
`right=3`, `K=-1` violates every validity condition of the claim
(`D ≤ 0`, `W ≤ 0`, `left > right`, `K < 0`), yet argument handling
accepts it (`some`, not a configuration error). -/
theorem c7_counterexample :
    parseArgs [0, 0, 5, 3, -1, 9999] = some (0, 0, 5, 3, -1, 9999) ∧
    (0 : Int) ≤ 0 ∧ (3 : Int) < 5 ∧ (-1 : Int) < 0 := by
  decide

/-- C8 counterexample: on a run that admitted nothing (`totalAdmitted =
0`, empty histogram) the reporter raises an exception (modelled `none`)
instead of returning a sentinel F2 value. -/
theorem c8_counterexample :
    initState.admitted = 0 ∧ reportStats cfgA initState 0 = none := by
  decide

/-- C9 counterexample: under `cfgB` (one row, one bucket), the update
for item 1 drives cell `(0,0)` to 1, and the subsequent update for item
2 (sign -1) brings it back to 0: a sketch cell's magnitude decreased
under an ingestion update, contradicting the magnitude-monotonicity
conjunct of the claim. -/
theorem c9_counterexample :
    (process_batch cfgB initState [1]).sketch 0 0 = 1 ∧
    (process_batch cfgB (process_batch cfgB initState [1]) [2]).sketch 0 0 = 0 ∧
    ((process_batch cfgB (process_batch cfgB initState [1]) [2]).sketch 0 0).natAbs <
      ((process_batch cfgB initState [1]).sketch 0 0).natAbs := by
  decide

/-- C10 counterexample: under `cfgA` with the single batch `[1,1,3]`,
the histogram has 2 distinct items and `K = 1` satisfies `0 < K ≤ 2`;
both items carry the same estimated frequency 3, and the statistics
computation raises an IndexError (modelled `none`): the tie-extension
loop reads `desc_histogram[3]` on a 2-element ranking. -/
theorem c10_counterexample :
    (0 : Int) < 1 ∧ (1 : Int) ≤ ((sortDesc sC10.hist).length : Int) ∧
    approx_histogram cfgA sC10.sketch 1 = approx_histogram cfgA sC10.sketch 3 ∧
    reportStats cfgA sC10 1 = none := by
  refine ⟨by decide, by decide, ?_, by decide⟩
  exact (approx_eq_iff_twice cfgA sC10.sketch 1 3).mpr (by decide)

/-- C4: sketch accumulation is additive and order-independent:
processing the concatenation of two sub-batches one after the other
equals processing them in one batch; processing a batch equals applying
one aggregated `sketchUpdate1` of weight `m` per distinct item with its
multiplicity `m` (so per-occurrence unit updates equal per-distinct
aggregated updates); a batch of `m` copies of one item is a single
update of weight `m`; and the result depends on the batch only up to
permutation. -/
theorem c4_additive (cfg : Cfg) (sk : Sketch) (l1 l2 l : List Int) (x : Int) (m : Nat) :
    count_sketch cfg sk (l1 ++ l2) = count_sketch cfg (count_sketch cfg sk l1) l2 ∧
    count_sketch cfg sk l =
      (batch_items l).foldl (fun t kv => sketchUpdate1 cfg t kv.1 kv.2) sk ∧
    count_sketch cfg sk (List.replicate m x) = sketchUpdate1 cfg sk x (m : Int) ∧
    (l1.Perm l2 → count_sketch cfg sk l1 = count_sketch cfg sk l2) :=
  ⟨count_sketch_append cfg sk l1 l2, count_sketch_eq_foldl cfg sk l,
   count_sketch_replicate cfg sk x m, fun h => count_sketch_perm cfg sk h⟩

/-- Witness for C4: the permutation clause at the concrete batches
`[1, 2]` and `[2, 1]`. -/
theorem c4_additive_witness :
    ([1, 2] : List Int).Perm [2, 1] ∧
    count_sketch cfgA initState.sketch [1, 2] =
      count_sketch cfgA initState.sketch [2, 1] :=
  ⟨by decide, (c4_additive cfgA initState.sketch [1, 2] [2, 1] [] 0 0).2.2.2 (by decide)⟩

/-- C6: if `totalSeen` has already reached the threshold before the
batch, `process_batch` leaves the state unchanged; otherwise it adds
the raw batch size to `totalSeen`, the filtered size to
`totalAdmitted`, the multiplicity of each admitted item to its
histogram entry, and applies one sketch update of weight `m` per
distinct admitted item of multiplicity `m`. -/
theorem c6_process_batch (cfg : Cfg) (s : SState) (batch : List Int) :
    (THRESHOLD ≤ s.seen → process_batch cfg s batch = s) ∧
    (s.seen < THRESHOLD →
      (process_batch cfg s batch).seen = s.seen + (batch.length : Int) ∧
      (process_batch cfg s batch).admitted =
        s.admitted + ((filteredBatch cfg batch).length : Int) ∧
      (∀ k : Int, lookupD (process_batch cfg s batch).hist k =
        lookupD s.hist k + ((filteredBatch cfg batch).count k : Int)) ∧
      (process_batch cfg s batch).sketch =
        (batch_items (filteredBatch cfg batch)).foldl
          (fun t kv => sketchUpdate1 cfg t kv.1 kv.2) s.sketch) := by
  constructor
  · intro h
    simp [process_batch, h]
  · intro h
    have hn : ¬ THRESHOLD ≤ s.seen := not_le.mpr h
    refine ⟨by simp [process_batch, hn], by simp [process_batch, hn], fun k => ?_, ?_⟩
    · simp [process_batch, hn, lookupD_updateHist_batch_items]
    · simp [process_batch, hn, count_sketch_eq_foldl]

/-- Witness for C6: the non-skipping clause at the initial state and
the one-element batch `[5]`. -/
theorem c6_process_batch_witness :
    initState.seen < THRESHOLD ∧
    ((process_batch cfgA initState [5]).seen =
        initState.seen + (([5] : List Int).length : Int) ∧
      (process_batch cfgA initState [5]).admitted =
        initState.admitted + ((filteredBatch cfgA [5]).length : Int) ∧
      (∀ k : Int, lookupD (process_batch cfgA initState [5]).hist k =
        lookupD initState.hist k + ((filteredBatch cfgA [5]).count k : Int)) ∧
      (process_batch cfgA initState [5]).sketch =
        (batch_items (filteredBatch cfgA [5])).foldl
          (fun t kv => sketchUpdate1 cfgA t kv.1 kv.2) initState.sketch) :=
  ⟨by decide, (c6_process_batch cfgA initState [5]).2 (by decide)⟩

/-- C9 (amended): during ingestion, `totalSeen`, `totalAdmitted` and
every histogram entry are monotonically non-decreasing under
`process_batch`; sketch cells evolve additively under signed updates
and their magnitude need not be monotone (see the counterexample), and
estimation is a pure function of the state. -/
theorem c9_amended (cfg : Cfg) (s : SState) (batch : List Int) :
    s.seen ≤ (process_batch cfg s batch).seen ∧
    s.admitted ≤ (process_batch cfg s batch).admitted ∧
    ∀ k : Int, lookupD s.hist k ≤ lookupD (process_batch cfg s batch).hist k := by
  by_cases h : THRESHOLD ≤ s.seen
  · simp [process_batch, h]
  · refine ⟨?_, ?_, fun k => ?_⟩
    · simp [process_batch, h]
    · simp [process_batch, h]
    · simp [process_batch, h, lookupD_updateHist_batch_items]

/-- C5: the estimate of every item is the median, in the spec's sense,
of the `D` per-row values `g_j(u) * sketch[j, h_j(u)]`: for odd `D` the
middle value of the sorted row values, for even `D` the arithmetic mean
of the two middle sorted values. -/
theorem c5_median (cfg : Cfg) (sk : Sketch) (u : Int) (h : 0 < cfg.D) :
    approx_histogram cfg sk u = specMedian (approx_freq_list cfg sk u) ∧
    (cfg.D % 2 = 1 → approx_histogram cfg sk u =
      (((sortInt (approx_freq_list cfg sk u)).getD (cfg.D / 2) 0 : ℚ))) ∧
    (cfg.D % 2 = 0 → approx_histogram cfg sk u =
      ((((sortInt (approx_freq_list cfg sk u)).getD (cfg.D / 2 - 1) 0 : ℚ)) +
       (((sortInt (approx_freq_list cfg sk u)).getD (cfg.D / 2) 0 : ℚ))) / 2) := by
  have hlen : (approx_freq_list cfg sk u).length = cfg.D := by
    simp [approx_freq_list]
  have hval : ∀ i j : Nat, (cfg.D - 1) / 2 = i → cfg.D / 2 = j →
      approx_histogram cfg sk u =
        ((((sortInt (approx_freq_list cfg sk u)).getD i 0 : ℚ)) +
         (((sortInt (approx_freq_list cfg sk u)).getD j 0 : ℚ))) / 2 := by
    intro i j hi hj
    unfold approx_histogram approxTwice medianTwice
    rw [hlen, if_neg (by omega : ¬ cfg.D = 0), hi, hj]
    push_cast
    ring
  refine ⟨?_, ?_, ?_⟩
  · unfold specMedian
    rw [hlen]
    by_cases hpar : cfg.D % 2 = 1
    · rw [if_pos hpar]
      rw [hval (cfg.D / 2) (cfg.D / 2) (by omega) rfl]
      ring
    · rw [if_neg hpar, if_neg (by omega : ¬ cfg.D = 0)]
      exact hval (cfg.D / 2 - 1) (cfg.D / 2) (by omega) rfl
  · intro hpar
    rw [hval (cfg.D / 2) (cfg.D / 2) (by omega) rfl]
    ring
  · intro hpar
    exact hval (cfg.D / 2 - 1) (cfg.D / 2) (by omega) rfl

/-- Witness for C5: the configuration `cfgA` has `D = 1 > 0`, and the
estimate of item 0 on the zero sketch is the spec median of its row
values. -/
theorem c5_median_witness :
    0 < cfgA.D ∧
    approx_histogram cfgA initState.sketch 0 =
      specMedian (approx_freq_list cfgA initState.sketch 0) :=
  ⟨by decide, (c5_median cfgA initState.sketch 0 (by decide)).1⟩

/-- C7 (amended): argument handling validates only the argument count
(exactly six parameters besides the script name); every integer
assignment of the six values, including `D ≤ 0`, `W ≤ 0`,
`left > right` and `K < 0`, is accepted without a configuration
error. -/
theorem c7_amended (args : List Int) :
    (parseArgs args).isSome ↔ args.length = 6 := by
  by_cases h : args.length = 6 <;> simp [parseArgs, h]

theorem insertDesc_perm (acc : Hist) (x : Int × Int) :
    (insertDesc acc x).Perm (x :: acc) := by
  induction acc with
  | nil => simp [insertDesc]
  | cons y ys ih =>
    by_cases h : y.2 < x.2
    · simp [insertDesc, h]
    · simp only [insertDesc, if_neg h]
      exact (ih.cons y).trans (List.Perm.swap x y ys)

theorem sortDesc_perm_aux (l acc : Hist) :
    (l.foldl insertDesc acc).Perm (acc ++ l) := by
  induction l generalizing acc with
  | nil => simp
  | cons x xs ih =>
    simp only [List.foldl_cons]
    exact (ih (insertDesc acc x)).trans
      (((insertDesc_perm acc x).append_right xs).trans List.perm_middle.symm)

theorem sortDesc_perm (l : Hist) : (sortDesc l).Perm l := by
  simpa [sortDesc] using sortDesc_perm_aux l []

theorem insertDesc_sorted (acc : Hist) (x : Int × Int)
    (h : acc.Pairwise (fun a b => b.2 ≤ a.2)) :
    (insertDesc acc x).Pairwise (fun a b => b.2 ≤ a.2) := by
  induction acc with
  | nil => simp [insertDesc]
  | cons y ys ih =>
    obtain ⟨hy, hys⟩ := List.pairwise_cons.mp h
    by_cases hlt : y.2 < x.2
    · simp only [insertDesc, if_pos hlt]
      refine List.pairwise_cons.mpr ⟨?_, h⟩
      intro b hb
      rcases List.mem_cons.mp hb with hb | hb
      · subst hb
        exact le_of_lt hlt
      · exact le_trans (hy b hb) (le_of_lt hlt)
    · simp only [insertDesc, if_neg hlt]
      refine List.pairwise_cons.mpr ⟨?_, ih hys⟩
      intro b hb
      rcases List.mem_cons.mp ((insertDesc_perm ys x).mem_iff.mp hb) with hb | hb
      · subst hb
        exact not_lt.mp hlt
      · exact hy b hb

theorem sortDesc_sorted_aux (l acc : Hist)
    (h : acc.Pairwise (fun a b => b.2 ≤ a.2)) :
    (l.foldl insertDesc acc).Pairwise (fun a b => b.2 ≤ a.2) := by
  induction l generalizing acc with
  | nil => exact h
  | cons x xs ih =>
    exact ih (insertDesc acc x) (insertDesc_sorted acc x h)

theorem sortDesc_sorted (l : Hist) :
    (sortDesc l).Pairwise (fun a b => b.2 ≤ a.2) :=
  sortDesc_sorted_aux l [] (by simp)

theorem filter_insertDesc (v : Int) (x : Int × Int) (acc : Hist)
    (h : acc.Pairwise (fun a b => b.2 ≤ a.2)) :
    (insertDesc acc x).filter (fun kv => decide (kv.2 = v)) =
      if x.2 = v then acc.filter (fun kv => decide (kv.2 = v)) ++ [x]
      else acc.filter (fun kv => decide (kv.2 = v)) := by
  induction acc with
  | nil => by_cases hx : x.2 = v <;> simp [insertDesc, hx]
  | cons y ys ih =>
    obtain ⟨hy, hys⟩ := List.pairwise_cons.mp h
    by_cases hlt : y.2 < x.2
    · simp only [insertDesc, if_pos hlt]
      by_cases hx : x.2 = v
      · have hnil : (y :: ys).filter (fun kv => decide (kv.2 = v)) = [] := by
          rw [List.filter_eq_nil_iff]
          intro a ha
          have ha2 : a.2 ≤ y.2 := by
            rcases List.mem_cons.mp ha with ha | ha
            · subst ha
              exact le_refl _
            · exact hy a ha
          simp only [decide_eq_true_eq]
          omega
        rw [List.filter_cons, hnil]
        simp [hx]
      · rw [List.filter_cons]
        simp [hx]
    · simp only [insertDesc, if_neg hlt]
      rw [List.filter_cons, List.filter_cons]
      by_cases hyv : y.2 = v <;> by_cases hx : x.2 = v <;>
        simp [hyv, hx, ih hys]

theorem sortDesc_filter_aux (v : Int) (l acc : Hist)
    (h : acc.Pairwise (fun a b => b.2 ≤ a.2)) :
    (l.foldl insertDesc acc).filter (fun kv => decide (kv.2 = v)) =
      acc.filter (fun kv => decide (kv.2 = v)) ++
        l.filter (fun kv => decide (kv.2 = v)) := by
  induction l generalizing acc with
  | nil => simp
  | cons x xs ih =>
    simp only [List.foldl_cons]
    rw [ih (insertDesc acc x) (insertDesc_sorted acc x h),
      filter_insertDesc v x acc h, List.filter_cons]
    by_cases hx : x.2 = v <;> simp [hx]

/-- C3 (amended): `desc_histogram` sorts the histogram items by true
frequency descending with a stable sort: the result is a permutation of
the histogram entries, pairwise non-increasing in frequency, and items
with any given frequency appear in histogram insertion order (the order
of first arrival in the stream) — there is no arrival-independent
secondary key. -/
theorem c3_amended (l : Hist) :
    (sortDesc l).Pairwise (fun a b => b.2 ≤ a.2) ∧
    (sortDesc l).Perm l ∧
    ∀ v : Int, (sortDesc l).filter (fun kv => decide (kv.2 = v)) =
      l.filter (fun kv => decide (kv.2 = v)) := by
  refine ⟨sortDesc_sorted l, sortDesc_perm l, fun v => ?_⟩
  have h := sortDesc_filter_aux v l [] (by simp)
  simpa [sortDesc] using h

theorem pyGet_nil {α : Type} (i : Int) : pyGet ([] : List α) i = none := by
  by_cases h : 0 ≤ i <;> simp [pyGet, h]

theorem topLoop_nil (approxT : Int → Int) (n : Nat) (hn : n ≠ 0) :
    topLoop ([] : Hist) approxT n = none := by
  cases n with
  | zero => exact absurd rfl hn
  | succ m =>
    cases htop : topLoop ([] : Hist) approxT m with
    | none => simp [topLoop, htop]
    | some r =>
      obtain ⟨rows, f2t, f2a, st⟩ := r
      simp [topLoop, htop, pyGet_nil]

theorem reportStats_hist_nil (cfg : Cfg) (s : SState) (K : Int) (h : s.hist = []) :
    reportStats cfg s K = none := by
  have hdesc : sortDesc s.hist = [] := by rw [h]; rfl
  unfold reportStats
  simp only [hdesc]
  by_cases hK : K.toNat = 0
  · rw [hK]
    simp [topLoop, pyGet_nil]
  · rw [topLoop_nil _ _ hK]

theorem process_batch_admitted_hist (cfg : Cfg) (s : SState) (b : List Int)
    (h : 0 ≤ s.admitted ∧ (s.admitted = 0 → s.hist = [])) :
    0 ≤ (process_batch cfg s b).admitted ∧
      ((process_batch cfg s b).admitted = 0 → (process_batch cfg s b).hist = []) := by
  by_cases hskip : THRESHOLD ≤ s.seen
  · simpa [process_batch, hskip] using h
  · simp only [process_batch, if_neg hskip]
    constructor
    · have hlen : (0 : Int) ≤ ((filteredBatch cfg b).length : Int) := Int.ofNat_nonneg _
      have h1 := h.1
      omega
    · intro h0
      have hlen : (filteredBatch cfg b).length = 0 := by
        have h1 := h.1
        omega
      have hadm : s.admitted = 0 := by
        have h1 := h.1
        omega
      have hfb : filteredBatch cfg b = [] := List.length_eq_zero.mp hlen
      simp only [hfb, h.2 hadm]
      rfl

theorem foldl_admitted_hist (cfg : Cfg) (batches : List (List Int)) (s : SState)
    (h : 0 ≤ s.admitted ∧ (s.admitted = 0 → s.hist = [])) :
    0 ≤ (batches.foldl (process_batch cfg) s).admitted ∧
      ((batches.foldl (process_batch cfg) s).admitted = 0 →
        (batches.foldl (process_batch cfg) s).hist = []) := by
  induction batches generalizing s with
  | nil => exact h
  | cons b bs ih => exact ih _ (process_batch_admitted_hist cfg s b h)

/-- C8 (amended): on every run whose final `totalAdmitted` is 0 the
histogram is empty and the statistics computation raises an exception
(an IndexError before ever reaching the division, and the division
itself would divide by zero), modelled as returning no result; no
sentinel value is produced. -/
theorem c8_amended (cfg : Cfg) (batches : List (List Int)) (K : Int)
    (h : (runState cfg batches).admitted = 0) :
    reportStats cfg (runState cfg batches) K = none := by
  apply reportStats_hist_nil
  exact (foldl_admitted_hist cfg batches initState (by simp [initState])).2 h

/-- Witness for C8 (amended): the empty run admits nothing and its
report is an exception. -/
theorem c8_amended_witness :
    (runState cfgA []).admitted = 0 ∧
    reportStats cfgA (runState cfgA []) 0 = none :=
  ⟨by decide, c8_amended cfgA [] 0 (by decide)⟩

theorem pyGet_nonneg_lt (l : Hist) (i : Int) (h0 : 0 ≤ i)
    (hlt : i < (l.length : Int)) :
    pyGet l i = some (l.getD i.toNat (0, 0)) := by
  unfold pyGet
  rw [if_pos h0]
  cases hx : l.get? i.toNat with
  | none =>
    have := List.get?_eq_none.mp hx
    omega
  | some x =>
    rw [List.getD_eq_getElem?_getD, ← List.get?_eq_getElem?, hx]
    rfl

theorem topLoop_isSome (desc : Hist) (approxT : Int → Int) (n : Nat)
    (h : n ≤ desc.length) :
    (topLoop desc approxT n).isSome := by
  induction n with
  | zero => simp [topLoop]
  | succ m ih =>
    obtain ⟨r, hr⟩ := Option.isSome_iff_exists.mp (ih (by omega))
    obtain ⟨rows, f2t, f2a, st⟩ := r
    have hget : pyGet desc (m : Int) = some (desc.getD m (0, 0)) := by
      have := pyGet_nonneg_lt desc (m : Int) (by positivity) (by omega)
      simpa using this
    simp [topLoop, hr, hget]

theorem topLoop_stale_isSome (desc : Hist) (approxT : Int → Int) (m : Nat)
    (r : List (Int × Int × Int) × List Int × List Int × Option (Int × Int))
    (h : topLoop desc approxT (m + 1) = some r) : r.2.2.2.isSome := by
  unfold topLoop at h
  cases htop : topLoop desc approxT m with
  | none => rw [htop] at h; simp at h
  | some r0 =>
    obtain ⟨rows, f2t, f2a, st⟩ := r0
    rw [htop] at h
    cases hget : pyGet desc (m : Int) with
    | none => rw [hget] at h; simp at h
    | some kv =>
      rw [hget] at h
      simp only [Option.some.injEq] at h
      rw [← h]
      rfl

theorem tieLoop_break (desc : Hist) (approxT : Int → Int) (K targetT : Int)
    (fuel : Nat) (count : Int) (extras : List (Int × Int × Int))
    (stale : Option (Int × Int)) (kvc : Int × Int)
    (hget : pyGet desc (K - 1 + count) = some kvc)
    (hne : approxT kvc.1 ≠ targetT) :
    tieLoop desc approxT K targetT (fuel + 1) count extras stale =
      some (extras, stale) := by
  unfold tieLoop
  rw [hget]
  simp [hne]

/-- C10 (amended): the statistics computation completes without any
out-of-range access provided `0 < K` is strictly below the number of
distinct items, the run admitted at least one item, and the estimated
frequency of the K-th ranked item differs from that of the (K+1)-th
ranked item (so the tie-extension loop breaks on its first comparison);
when the boundary estimates coincide the loop can index past the end of
the ranking (see the counterexample). -/
theorem c10_amended (cfg : Cfg) (s : SState) (K : Int)
    (h1 : 0 < K) (h2 : K < ((sortDesc s.hist).length : Int)) (h3 : s.admitted ≠ 0)
    (h4 : approx_histogram cfg s.sketch
        ((sortDesc s.hist).getD (K - 1).toNat (0, 0)).1 ≠
      approx_histogram cfg s.sketch ((sortDesc s.hist).getD K.toNat (0, 0)).1) :
    (reportStats cfg s K).isSome := by
  have hKlen : K.toNat ≤ (sortDesc s.hist).length := by omega
  obtain ⟨r, hr⟩ := Option.isSome_iff_exists.mp
    (topLoop_isSome (sortDesc s.hist) (approxTwice cfg s.sketch) K.toNat hKlen)
  obtain ⟨rows, f2t, f2a, st⟩ := r
  obtain ⟨m, hm⟩ : ∃ m, K.toNat = m + 1 := ⟨K.toNat - 1, by omega⟩
  have hst : st.isSome := by
    have hr' : topLoop (sortDesc s.hist) (approxTwice cfg s.sketch) (m + 1) =
        some (rows, f2t, f2a, st) := by rw [← hm]; exact hr
    exact topLoop_stale_isSome (sortDesc s.hist) (approxTwice cfg s.sketch) m _ hr'
  obtain ⟨stv, hstv⟩ := Option.isSome_iff_exists.mp hst
  have hg1 : pyGet (sortDesc s.hist) (K - 1) =
      some ((sortDesc s.hist).getD (K - 1).toNat (0, 0)) :=
    pyGet_nonneg_lt _ _ (by omega) (by omega)
  have hgK : pyGet (sortDesc s.hist) (K - 1 + 1) =
      some ((sortDesc s.hist).getD K.toNat (0, 0)) := by
    have he : K - 1 + 1 = K := by ring
    rw [he]
    exact pyGet_nonneg_lt _ _ (by omega) h2
  have htwice : approxTwice cfg s.sketch ((sortDesc s.hist).getD K.toNat (0, 0)).1 ≠
      approxTwice cfg s.sketch ((sortDesc s.hist).getD (K - 1).toNat (0, 0)).1 := by
    intro he
    exact h4 ((approx_eq_iff_twice cfg s.sketch _ _).mpr he.symm)
  have htie : tieLoop (sortDesc s.hist) (approxTwice cfg s.sketch) K
      (approxTwice cfg s.sketch ((sortDesc s.hist).getD (K - 1).toNat (0, 0)).1)
      (((((sortDesc s.hist).length : Int) + 2 - K).toNat + 1) + 1) 1 [] st =
      some ([], st) :=
    tieLoop_break _ _ _ _ _ _ _ _ _ hgK htwice
  have hadm : ¬ (s.admitted ^ 2 = 0) := by
    simpa [sq_eq_zero_iff] using h3
  unfold reportStats
  rw [hr, hg1]
  simp only []
  rw [htie]
  by_cases hnrem : ((((sortDesc s.hist).length : Int)) - K).toNat = 0
  · simp [hnrem, hadm]
  · simp [hnrem, hadm, hstv]

/-- Witness for C10 (amended): the run of `sC2` with `K = 1`: three
distinct items, `totalAdmitted = 5`, and distinct boundary estimates
(4 for item 5 at rank 1, 1 for item 6 at rank 2), so the report
completes. -/
theorem c10_amended_witness :
    (0 : Int) < 1 ∧ (1 : Int) < ((sortDesc sC2.hist).length : Int) ∧
    sC2.admitted ≠ 0 ∧
    approx_histogram cfgA sC2.sketch ((sortDesc sC2.hist).getD 0 (0, 0)).1 ≠
      approx_histogram cfgA sC2.sketch ((sortDesc sC2.hist).getD 1 (0, 0)).1 ∧
    (reportStats cfgA sC2 1).isSome := by
  have hne : approx_histogram cfgA sC2.sketch ((sortDesc sC2.hist).getD 0 (0, 0)).1 ≠
      approx_histogram cfgA sC2.sketch ((sortDesc sC2.hist).getD 1 (0, 0)).1 := by
    intro he
    have := (approx_eq_iff_twice cfgA sC2.sketch _ _).mp he
    revert this
    decide
  exact ⟨by decide, by decide, by decide, hne,
    c10_amended cfgA sC2 1 (by decide) (by decide) (by decide) hne⟩

end CountSketch
